import Mathlib

/-!
Verification development for the CommitWatch change-detection engine.

The definitions below are a shallow embedding of the JavaScript modules:
`src/modules/commit-analysis.js` (commit type analysis and priority
classification), `src/modules/commit-monitoring.js` (per-repository commit
check and the polling sweep), the GitHub API client (`fetchGitHub` with its
rate-limit gate), the notification history (`storeNotificationHistory`), and
the repository directory (`fetchUserRepositories` pagination).

JavaScript regular expressions used by the classifier are simple anchored or
unanchored case-insensitive patterns; they are embedded as case-insensitive
prefix/suffix/substring/exact tests over the character list of the filename
(ASCII case folding via `Char.toLower`, which matches the letters appearing
in the patterns).  JavaScript truthiness of possibly-absent strings is
modelled by `Option String` together with the `""`-is-falsy convention.
The float comparison `additions < deletions * 0.3` is modelled exactly over
the integers as `additions * 10 < deletions * 3`.
-/

namespace CommitWatch

/-! ### Case-insensitive string matching primitives -/

/-- Boolean list-prefix test (used to embed anchored `^...` regexes). -/
def isPrefixOfB : List Char → List Char → Bool
  | [], _ => true
  | _ :: _, [] => false
  | a :: as, b :: bs => a == b && isPrefixOfB as bs

/-- Boolean substring test (used to embed unanchored regexes). -/
def isSubListB (p : List Char) : List Char → Bool
  | [] => isPrefixOfB p []
  | b :: bs => isPrefixOfB p (b :: bs) || isSubListB p bs

/-- Lower-cased character list of a string (embeds the `/i` regex flag). -/
def lowerChars (s : String) : List Char := s.data.map Char.toLower

/-- Case-insensitive substring test: embeds an unanchored `/pat/i` regex. -/
def ciContains (pat s : String) : Bool := isSubListB (lowerChars pat) (lowerChars s)

/-- Case-insensitive prefix test: embeds an anchored `/^pat/i` regex. -/
def ciStarts (pat s : String) : Bool := isPrefixOfB (lowerChars pat) (lowerChars s)

/-- Case-insensitive suffix test: embeds an anchored `/pat$/i` regex. -/
def ciEnds (pat s : String) : Bool :=
  isPrefixOfB (lowerChars pat).reverse (lowerChars s).reverse

/-- Case-insensitive whole-string test: embeds a `/^pat$/i` regex. -/
def ciExact (pat s : String) : Bool := lowerChars pat == lowerChars s

/-! ### File pattern families (`filePatterns` in `analyzeCommitType`) -/

/-- `filePatterns.docs` of `commit-analysis.js`. -/
def docsMatch (f : String) : Bool :=
  ciEnds ".md" f || ciEnds ".mdx" f || ciEnds ".adoc" f || ciEnds ".rst" f ||
  ciEnds ".txt" f || ciStarts "docs/" f || ciStarts "documentation/" f ||
  ciStarts ".github/issue_template" f || ciStarts ".github/pull_request_template" f ||
  ciStarts "readme" f || ciStarts "changelog" f || ciStarts "contributing" f ||
  ciStarts "authors" f || ciStarts "credits" f || ciStarts "license" f ||
  ciStarts "copying" f || ciStarts "man/" f || ciEnds ".1" f || ciStarts "wiki/" f

/-- `filePatterns.config` of `commit-analysis.js`. -/
def configMatch (f : String) : Bool :=
  ciEnds "package.json" f || ciEnds "package-lock.json" f || ciEnds "yarn.lock" f ||
  ciEnds "pnpm-lock.yaml" f || ciEnds "composer.json" f || ciContains "gemfile" f ||
  ciEnds "requirements.txt" f || ciContains "pipfile" f || ciEnds "poetry.lock" f ||
  ciEnds "cargo.toml" f || ciEnds "go.mod" f || ciEnds ".env.example" f ||
  ciEnds ".editorconfig" f || ciEnds ".gitignore" f || ciEnds ".gitattributes" f ||
  ciEnds ".npmrc" f || (ciContains ".eslintrc" f || ciContains ".prettierrc" f) ||
  ciEnds "tsconfig.json" f || ciEnds "jsconfig.json" f

/-- `filePatterns.ci` of `commit-analysis.js`. -/
def ciMatch (f : String) : Bool :=
  ciStarts ".github/workflows/" f || ciExact ".gitlab-ci.yml" f ||
  ciExact ".travis.yml" f || ciExact "jenkinsfile" f || ciStarts ".circleci/" f ||
  ciExact "azure-pipelines.yml" f || ciExact "dockerfile" f ||
  ciStarts "docker-compose" f || ciExact ".dockerignore" f

/-- Extensions in the `\.(test|spec)\.(js|ts|jsx|tsx|py|rb|go|rs)$` pattern. -/
def codeExtensions : List String := ["js", "ts", "jsx", "tsx", "py", "rb", "go", "rs"]

/-- `filePatterns.tests` of `commit-analysis.js`. -/
def testsMatch (f : String) : Bool :=
  (["test", "spec"].any fun t => codeExtensions.any fun e =>
    ciEnds ("." ++ t ++ "." ++ e) f) ||
  (ciStarts "test/" f || ciStarts "tests/" f) || ciStarts "__tests__/" f ||
  ciStarts "spec/" f || ciEnds ".test" f

/-- `filePatterns.localization` of `commit-analysis.js`. -/
def localizationMatch (f : String) : Bool :=
  (ciStarts "locale/" f || ciStarts "locales/" f) || ciStarts "i18n/" f ||
  ciStarts "lang/" f || (ciEnds ".po" f || ciEnds ".pot" f || ciEnds ".mo" f) ||
  (ciStarts "translation/" f || ciStarts "translations/" f)

/-- The non-code file categories recognised by `analyzeCommitType`. -/
inductive FileCategory
  | docs | config | ci | tests | localization | code
deriving DecidableEq

/-- The five pattern families in the iteration order of
`Object.entries(filePatterns)` in `analyzeCommitType` (insertion order). -/
def fileFamilies : List (FileCategory × (String → Bool)) :=
  [(.docs, docsMatch), (.config, configMatch), (.ci, ciMatch),
   (.tests, testsMatch), (.localization, localizationMatch)]

/-- The inner categorisation loop of `analyzeCommitType`: the first family
whose pattern list matches wins (the `break` in the source); a file matching
no family is `code`. -/
def categorizeFile (filename : String) : FileCategory :=
  match fileFamilies.find? (fun p => p.2 filename) with
  | some p => p.1
  | none => .code

/-! ### Canonical commit record -/

/-- One changed file of a commit (`files[]` entries; `additions`/`deletions`
default to 0 when absent, as in the `|| 0` reads of the source). -/
structure FileChange where
  filename : String
  additions : Nat
  deletions : Nat
deriving DecidableEq

/-- Aggregate stats of a commit (`commit.stats`; absent stats behave as 0 via
the `commit.stats?.additions || 0` reads). -/
structure Stats where
  additions : Nat
  deletions : Nat
deriving DecidableEq

/-- Canonical commit record consumed by the classifier and the monitor.
`authorLogin` is `commit.author?.login`; `parents` the list of parent shas;
`message` is `commit.commit.message`; `unchanged` is the marker field set by
the fetch optimisation when the sha did not change. -/
structure Commit where
  sha : String
  message : String
  authorLogin : Option String
  parents : List String
  files : List FileChange
  stats : Stats
  unchanged : Bool
deriving DecidableEq

/-- Structural commit types produced by `analyzeCommitType`. -/
inductive CommitType
  | merge | docs | config | ci | tests | localization | code
deriving DecidableEq

/-- Result of `analyzeCommitType`: the structural type together with the
detail fields that `classifyCommitPriority` later reads (`details.additions`
and `details.deletions`; branches of the source that omit them behave as 0
under the truthiness test `details.additions || details.deletions`). -/
structure Analysis where
  type : CommitType
  fileCount : Nat
  additions : Nat
  deletions : Nat
deriving DecidableEq

/-- Number of files of `files` that the categorisation loop assigns to
category `cat`. -/
def countCategory (files : List FileChange) (cat : FileCategory) : Nat :=
  (files.filter (fun f => categorizeFile f.filename = cat)).length

/-- `analyzeCommitType` of `commit-analysis.js`: merge by parent count, else
all-files-in-one-family detection in source order, else `code`. -/
def analyzeCommitType (c : Commit) : Analysis :=
  if 2 ≤ c.parents.length then ⟨.merge, 0, 0, 0⟩
  else if 0 < c.files.length then
    let total := c.files.length
    if countCategory c.files .docs = total then ⟨.docs, total, 0, 0⟩
    else if countCategory c.files .config = total then ⟨.config, total, 0, 0⟩
    else if countCategory c.files .ci = total then ⟨.ci, total, 0, 0⟩
    else if countCategory c.files .tests = total then ⟨.tests, total, 0, 0⟩
    else if countCategory c.files .localization = total then ⟨.localization, total, 0, 0⟩
    else ⟨.code, total, c.stats.additions, c.stats.deletions⟩
  else ⟨.code, 0, 0, 0⟩

/-! ### Critical-file analysis (`analyzeCriticalFiles`) -/

/-- Whole-path test for the core entry-point patterns
`/^(src\/)?BASE\.(js|ts|jsx|tsx|py|rb|go|rs)$/i`. -/
def coreEntryMatch (base : String) (f : String) : Bool :=
  codeExtensions.any fun e =>
    ciExact (base ++ "." ++ e) f || ciExact ("src/" ++ base ++ "." ++ e) f

/-- The `criticalPatterns` table of `analyzeCriticalFiles`, in source order,
as (matcher, weight) pairs. -/
def criticalPatterns : List ((String → Bool) × Nat) :=
  [(ciContains "auth", 3), (ciContains "security", 3), (ciContains "login", 3),
   (ciContains "password", 3), (ciContains "token", 3), (ciContains "session", 2),
   (ciContains "crypto", 3), (ciContains "encrypt", 3),
   (coreEntryMatch "index", 2), (coreEntryMatch "main", 2),
   (coreEntryMatch "app", 2), (coreEntryMatch "server", 2),
   (ciContains "kernel", 3), (ciContains "engine", 2),
   (ciContains "migration", 2), (ciContains "schema", 2),
   (ciContains "database", 2),
   (fun f => ciContains "model/" f || ciContains "models/" f, 2),
   (ciContains "api/", 1),
   (fun f => ciContains "route/" f || ciContains "routes/" f, 1),
   (fun f => ciContains "controller/" f || ciContains "controllers/" f, 1),
   (fun f => ciContains "endpoint/" f || ciContains "endpoints/" f, 1),
   (ciContains "webpack", 2), (ciContains "vite.config", 2),
   (ciContains "rollup", 2), (ciContains "babel", 1)]

/-- Result of `analyzeCriticalFiles`.  `criticalFiles` keeps (filename,
weight) of each file paired with its first matching pattern (the `break` in
the source).  For an empty file list the source returns an object with only
`hasCritical`/`criticalFiles`; the absent `maxWeight`/`isHighPriority` read
as falsy and are modelled by `0`/`false`. -/
structure CriticalAnalysis where
  hasCritical : Bool
  criticalFiles : List (String × Nat)
  maxWeight : Nat
  isHighPriority : Bool
deriving DecidableEq

/-- `analyzeCriticalFiles` of `commit-analysis.js`. -/
def analyzeCriticalFiles (files : List FileChange) : CriticalAnalysis :=
  if files.length = 0 then ⟨false, [], 0, false⟩
  else
    let criticalFiles := files.filterMap fun f =>
      (criticalPatterns.find? (fun p => p.1 f.filename)).map fun p => (f.filename, p.2)
    let maxWeight := criticalFiles.foldl (fun m x => max m x.2) 0
    ⟨decide (0 < criticalFiles.length), criticalFiles, maxWeight,
     decide (3 ≤ maxWeight) || decide (3 ≤ criticalFiles.length)⟩

/-! ### Priority classification (`classifyCommitPriority`) -/

/-- Priority tiers. -/
inductive Priority
  | high | medium | low
deriving DecidableEq

/-- `HIGH_PRIORITY_KEYWORDS` of `constants.js`. -/
def HIGH_PRIORITY_KEYWORDS : List String :=
  ["fix", "hotfix", "breaking", "critical", "urgent", "security"]

/-- The `lowKeywords` list local to `classifyCommitPriority`. -/
def lowKeywords : List String :=
  ["format", "formatting", "style", "chore", "refactor", "rename"]

/-- The `['merge','docs','config','ci','localization'].includes(type)` test. -/
def isLowPriorityType : CommitType → Bool
  | .merge => true
  | .docs => true
  | .config => true
  | .ci => true
  | .localization => true
  | _ => false

/-- The large-deletion heuristic on a single file:
`deletions > 100 && additions < deletions * 0.3` (the float factor `0.3`
modelled exactly as `additions * 10 < deletions * 3`). -/
def largeDeletionFile (f : FileChange) : Bool :=
  decide (100 < f.deletions) && decide (f.additions * 10 < f.deletions * 3)

/-- `message.includes(keyword)` after the source lower-cases the message. -/
def messageHasKeyword (message : String) (k : String) : Bool :=
  isSubListB k.data (lowerChars message)

/-- `classifyCommitPriority` of `commit-analysis.js`.  The `repo` and
`userData` parameters are accepted (as in the source signature) and, as in
the source body, never read. -/
def classifyCommitPriority {R U : Type} (commit : Commit) (repo : R) (userData : U) :
    Priority :=
  let analysis := analyzeCommitType commit
  if isLowPriorityType analysis.type then .low
  else if analysis.type = .tests then .medium
  else
    let crit := analyzeCriticalFiles commit.files
    if crit.isHighPriority then .high
    else if 0 < commit.files.length ∧ commit.files.any largeDeletionFile then .high
    else if 0 < commit.files.length ∧ crit.hasCritical ∧ 2 ≤ crit.criticalFiles.length
      then .high
    else if HIGH_PRIORITY_KEYWORDS.any (messageHasKeyword commit.message) then .high
    else if crit.hasCritical then .medium
    else if (analysis.additions ≠ 0 ∨ analysis.deletions ≠ 0) ∧
        500 < analysis.additions + analysis.deletions then .medium
    else if lowKeywords.any (messageHasKeyword commit.message) then .low
    else .medium

/-! ### Repository, settings and watch state (`commit-monitoring.js`) -/

/-- Repository reference.  `platform` is the possibly-absent `repo.platform`
field (absent or `""` behaves as `github` through the `|| 'github'` read). -/
structure Repo where
  platform : Option String
  full_name : String
  default_branch : String
deriving DecidableEq

/-- Authenticated identity (`userData` / `gitlabUserData`). -/
structure User where
  login : String
deriving DecidableEq

/-- The settings fields read by the monitoring and directory code. -/
structure Settings where
  enabledRepos : String → Option Bool
  ignoreOwnCommits : Bool
  ignoreForks : Bool

/-- JavaScript `a || b` on possibly-absent strings (`""` is falsy). -/
def jsOrStr : Option String → Option String → Option String
  | some s, b => if s = "" then b else some s
  | none, b => b

/-- JavaScript truthiness of a possibly-absent string. -/
def truthyStr : Option String → Bool
  | some s => s != ""
  | none => false

/-- `repo.platform || 'github'`. -/
def platformOr : Option String → String
  | some s => if s = "" then "github" else s
  | none => "github"

/-- The composite per-repository key `` `${repo.platform || 'github'}:${repo.full_name}` ``. -/
def repoKeyOf (repo : Repo) : String :=
  platformOr repo.platform ++ ":" ++ repo.full_name

/-- The object returned by `checkRepoForNewCommits` (absent `priority` on the
non-notifying results is `none`). -/
structure CheckResult where
  repo : Repo
  commit : Commit
  isNew : Bool
  priority : Option Priority
  repoKey : String
deriving DecidableEq

/-- `checkRepoForNewCommits` of `commit-monitoring.js`, with the network
fetch (`fetchLatestCommit`) supplied as an oracle mapping the repository and
the last known sha to the commit the fetch resolves with (`none` for the
`null` returns of the fetch helpers). -/
def checkRepoForNewCommits (repo : Repo) (lastCommits : String → Option String)
    (settings : Settings) (userData gitlabUserData : Option User)
    (fetch : Repo → Option String → Option Commit) : Option CheckResult :=
  let repoKey := repoKeyOf repo
  if settings.enabledRepos repoKey = some false ∨
      settings.enabledRepos repo.full_name = some false then
    none
  else
    let lastKnownSha := jsOrStr (lastCommits repoKey) (lastCommits repo.full_name)
    match fetch repo lastKnownSha with
    | none => none
    | some latestCommit =>
      if latestCommit.unchanged then none
      else if !(truthyStr lastKnownSha) then
        some ⟨repo, latestCommit, false, none, repoKey⟩
      else if latestCommit.sha != lastKnownSha.getD "" then
        let currentUser := if repo.platform = some "gitlab" then gitlabUserData
          else userData
        let ownCommit : Bool :=
          match currentUser, latestCommit.authorLogin with
          | some u, some a => a == u.login
          | _, _ => false
        if settings.ignoreOwnCommits && ownCommit then
          some ⟨repo, latestCommit, false, none, repoKey⟩
        else
          some ⟨repo, latestCommit, true,
            some (classifyCommitPriority latestCommit repo currentUser), repoKey⟩
      else none

/-- The per-result body of the sweep loop in `checkAllRepositoriesForCommits`:
`updatedLastCommits[result.repoKey || result.repo.full_name] = result.commit.sha`
for a non-null result, no update otherwise. -/
def applyResult (m : String → Option String) : Option CheckResult → String → Option String
  | none => m
  | some result =>
    let key := if result.repoKey = "" then result.repo.full_name else result.repoKey
    fun k => if k = key then some result.commit.sha else m k

/-- The state updates of one full sweep of `checkAllRepositoriesForCommits`:
every repository is checked against the sweep-initial `lastCommits` map and
each non-null result overwrites its key in the updated map.  (The source
processes repositories in batches of 10 via `Promise.all`; the results are
folded in list order either way, so the batching is transparent to the final
map.) -/
def sweepUpdates (repos : List Repo) (lastCommits : String → Option String)
    (settings : Settings) (userData gitlabUserData : Option User)
    (fetch : Repo → Option String → Option Commit) : String → Option String :=
  repos.foldl
    (fun m repo =>
      applyResult m (checkRepoForNewCommits repo lastCommits settings userData
        gitlabUserData fetch))
    lastCommits

/-! ### Fetch-level error handling (`fetchLatestGitHubCommit`) -/

/-- An HTTP response with parsed JSON body. -/
structure HttpResponse (α : Type) where
  ok : Bool
  status : Nat
  body : α
deriving DecidableEq

/-- Outcome of one `fetchGitHub` call as seen by its caller: a response, or a
thrown error (network failure, rate limit, missing credential). -/
inductive NetOutcome (α : Type)
  | success (response : HttpResponse α)
  | netError
deriving DecidableEq

/-- `fetchLatestGitHubCommit` of `commit-monitoring.js`, with the two
`fetchGitHub` calls (commit list, commit detail) supplied as oracles.  Its
whole body runs inside `try { ... } catch { return null }`, so every thrown
error — including a non-ok list response, which the source re-throws — ends
as `none`; a 409 list response (empty repository) returns `none` directly;
a non-ok detail response falls back to the basic list record. -/
def fetchLatestGitHubCommit (lastKnownSha : Option String)
    (listOutcome : NetOutcome (List Commit)) (detailOutcome : NetOutcome Commit) :
    Option Commit :=
  match listOutcome with
  | .netError => none
  | .success listResponse =>
    if listResponse.ok = false then
      if listResponse.status = 409 then none
      else none
    else
      match listResponse.body.head? with
      | none => none
      | some first =>
        if truthyStr lastKnownSha && (first.sha == lastKnownSha.getD "") then
          some { first with unchanged := true }
        else
          match detailOutcome with
          | .netError => none
          | .success detailResponse =>
            if detailResponse.ok = false then some first
            else some detailResponse.body

/-! ### Rate-limit gate of the GitHub API client (`github-api.js`) -/

/-- Observable outcome of a `fetchGitHub` call, up to the point where it
either throws or issues the network request: `response` carries whatever the
network returned and is only reached when a request is actually made. -/
inductive GhOutcome (α : Type)
  | notAuthenticated
  | rateLimited (retryAfterMinutes : ℤ)
  | response (r : α)
deriving DecidableEq

/-- `fetchGitHub` of `github-api.js` up to the request: requires a stored
token, then consults the module-level rate-limit state
(`rateLimitRemaining`, `rateLimitReset`; a `0`/null reset is falsy and
disables the gate) and throws `Rate limit exceeded. Resets in N minutes.`
with `N = Math.ceil((reset - now) / 60)` when `remaining <= 10` and
`now < reset`; otherwise it performs the network call `net`. -/
def fetchGitHub {α : Type} (token : Option String) (rateLimitRemaining : ℤ)
    (rateLimitReset : ℕ) (now : ℚ) (net : Unit → α) : GhOutcome α :=
  if !(truthyStr token) then .notAuthenticated
  else if rateLimitRemaining ≤ 10 ∧ rateLimitReset ≠ 0 ∧ now < (rateLimitReset : ℚ) then
    .rateLimited (Int.ceil (((rateLimitReset : ℚ) - now) / 60))
  else .response (net ())

/-! ### Notification history (`storeNotificationHistory` in notifications) -/

/-- One stored notification history entry; `timestamp` is the `Date.now()`
value attached at insertion time. -/
structure NotificationRecord where
  id : String
  timestamp : Nat
deriving DecidableEq

/-- `storeNotificationHistory`: unshift the new record onto the stored list
and keep `slice(0, 100)`. -/
def storeNotificationHistory (notificationHistory : List NotificationRecord)
    (record : NotificationRecord) : List NotificationRecord :=
  (record :: notificationHistory).take 100

/-- A sequence of `storeNotificationHistory` insertions, in order, starting
from the stored history `h0`. -/
def runHistory (h0 : List NotificationRecord) (ns : List NotificationRecord) :
    List NotificationRecord :=
  ns.foldl storeNotificationHistory h0

/-! ### Repository directory pagination (`fetchUserRepositories`) -/

/-- A repository as returned by the `/user/repos` endpoint (the fields the
pagination loop reads). -/
structure RawRepo where
  full_name : String
  fork : Bool
deriving DecidableEq

/-- A page response from the repositories endpoint. -/
structure PageResponse where
  ok : Bool
  body : List RawRepo

/-- The endpoint string requested for page `page`. -/
def reposEndpoint (page : Nat) : String :=
  "/user/repos?affiliation=owner,collaborator,organization_member&per_page=100&page="
    ++ toString page

/-- The `while (hasMore)` pagination loop of `fetchUserRepositories`:
fetch a page, throw on a non-ok response, stop on an empty page, otherwise
append the fork-filtered page and advance, breaking once `page > 50`.
Returns the list of requested endpoints together with the outcome.
Totality of this definition is the termination of the loop. -/
def fetchReposAux (server : String → PageResponse) (settings : Settings)
    (page : Nat) (acc : List RawRepo) (requested : List String) :
    List String × Except String (List RawRepo) :=
  let endpoint := reposEndpoint page
  let requested' := requested ++ [endpoint]
  let response := server endpoint
  if response.ok = false then (requested', .error "Failed to fetch repositories")
  else if response.body.length = 0 then (requested', .ok acc)
  else
    let filtered := response.body.filter fun r => !settings.ignoreForks || !r.fork
    let acc' := acc ++ filtered
    if h : 50 < page + 1 then (requested', .ok acc')
    else fetchReposAux server settings (page + 1) acc' requested'
termination_by 50 - page
decreasing_by omega

/-- `fetchUserRepositories` of the repositories module: paginate from page 1
with an empty accumulator. -/
def fetchUserRepositories (server : String → PageResponse) (settings : Settings) :
    List String × Except String (List RawRepo) :=
  fetchReposAux server settings 1 [] []

/-- Length of the repository list of a successful outcome (0 on error). -/
def okLength : Except String (List RawRepo) → Nat
  | .ok l => l.length
  | .error _ => 0

/-! ## Helper lemmas -/

/-- `isHighPriority` always equals its defining formula, also in the
empty-files branch where the source leaves the field absent (falsy). -/
theorem analyzeCriticalFiles_isHighPriority (files : List FileChange) :
    (analyzeCriticalFiles files).isHighPriority =
      (decide (3 ≤ (analyzeCriticalFiles files).maxWeight) ||
        decide (3 ≤ (analyzeCriticalFiles files).criticalFiles.length)) := by
  unfold analyzeCriticalFiles
  split <;> simp

/-- Truncating the right operand of an append before taking `n` elements of
the whole never changes the result. -/
theorem take_append_take {α : Type} (n : Nat) (l m : List α) :
    (l ++ m.take n).take n = (l ++ m).take n := by
  rw [List.take_append_eq_append_take, List.take_append_eq_append_take, List.take_take,
    min_eq_left (Nat.sub_le n l.length)]

/-- A sequence of history insertions starting from a stored history of at
most 100 entries keeps the reversed insertion list in front. -/
theorem runHistory_eq_take (ns : List NotificationRecord) :
    ∀ h0 : List NotificationRecord, h0.length ≤ 100 →
      runHistory h0 ns = (ns.reverse ++ h0).take 100 := by
  induction ns with
  | nil =>
    intro h0 hlen
    simp [runHistory, List.take_of_length_le hlen]
  | cons n ns ih =>
    intro h0 hlen
    have hlen' : ((n :: h0).take 100).length ≤ 100 := by
      rw [List.length_take]; omega
    calc runHistory h0 (n :: ns) = runHistory ((n :: h0).take 100) ns := rfl
      _ = (ns.reverse ++ (n :: h0).take 100).take 100 := ih _ hlen'
      _ = (ns.reverse ++ (n :: h0)).take 100 := take_append_take _ _ _
      _ = ((n :: ns).reverse ++ h0).take 100 := by
          rw [List.reverse_cons, List.append_assoc, List.singleton_append]

/-- The composite repository key is never the empty string. -/
theorem repoKeyOf_ne_empty (repo : Repo) : repoKeyOf repo ≠ "" := by
  intro h
  have hlen : (repoKeyOf repo).length = 0 := by rw [h]; rfl
  unfold repoKeyOf at hlen
  rw [String.length_append, String.length_append] at hlen
  have hone : (":" : String).length = 1 := rfl
  omega

/-- Every non-null result of `checkRepoForNewCommits` carries the composite
key of its repository. -/
theorem checkRepo_result_repoKey (repo : Repo) (lastCommits : String → Option String)
    (settings : Settings) (userData gitlabUserData : Option User)
    (fetch : Repo → Option String → Option Commit) (result : CheckResult)
    (h : checkRepoForNewCommits repo lastCommits settings userData gitlabUserData fetch =
      some result) : result.repoKey = repoKeyOf repo := by
  simp only [checkRepoForNewCommits] at h
  split at h
  · exact absurd h (by simp)
  · split at h
    · exact absurd h (by simp)
    · split at h
      · exact absurd h (by simp)
      · split at h
        · obtain rfl := Option.some_inj.mp h
          rfl
        · split at h
          · split at h <;> split at h <;>
              (obtain rfl := Option.some_inj.mp h; rfl)
          · exact absurd h (by simp)

/-- `applyResult` on a non-null result stores the commit sha at the result
key. -/
theorem applyResult_write (m : String → Option String) (res : CheckResult)
    (hkey : res.repoKey ≠ "") :
    applyResult m (some res) res.repoKey = some res.commit.sha := by
  simp only [applyResult]
  rw [if_neg hkey, if_pos rfl]

/-- `applyResult` leaves every other key unchanged. -/
theorem applyResult_other (m : String → Option String) (o : Option CheckResult)
    (k : String)
    (h : ∀ res, o = some res →
      (if res.repoKey = "" then res.repo.full_name else res.repoKey) ≠ k) :
    applyResult m o k = m k := by
  cases o with
  | none => rfl
  | some res =>
    simp only [applyResult]
    rw [if_neg fun hk => h res rfl hk.symm]

/-- Folding the sweep loop over a repository list that contains `repo`
(and no other repository with the same key) ends with the key mapped to the
sha of `repo`'s check result. -/
theorem sweep_lookup (lastCommits : String → Option String) (settings : Settings)
    (userData gitlabUserData : Option User)
    (fetch : Repo → Option String → Option Commit) (repo : Repo) (res : CheckResult)
    (hres : checkRepoForNewCommits repo lastCommits settings userData gitlabUserData fetch
      = some res) :
    ∀ (repos : List Repo) (m : String → Option String),
      (m (repoKeyOf repo) = some res.commit.sha ∨ repo ∈ repos) →
      (∀ r' ∈ repos, repoKeyOf r' = repoKeyOf repo → r' = repo) →
      List.foldl
        (fun m r => applyResult m
          (checkRepoForNewCommits r lastCommits settings userData gitlabUserData fetch))
        m repos (repoKeyOf repo) = some res.commit.sha := by
  intro repos
  induction repos with
  | nil =>
    intro m hm _
    rcases hm with hm | hm
    · exact hm
    · simp at hm
  | cons r l ih =>
    intro m hm huniq
    rw [List.foldl_cons]
    refine ih _ ?_ fun r' hr' hk => huniq r' (List.mem_cons_of_mem r hr') hk
    by_cases hr : r = repo
    · subst hr
      left
      rw [hres]
      have hkey : res.repoKey = repoKeyOf r :=
        checkRepo_result_repoKey r lastCommits settings userData gitlabUserData fetch
          res hres
      rw [← hkey]
      exact applyResult_write m res (fun he => repoKeyOf_ne_empty r (hkey ▸ he))
    · rcases hm with hm | hm
      · left
        rw [applyResult_other m _ _ ?_]
        · exact hm
        · intro res' hres'
          have hkey' : res'.repoKey = repoKeyOf r :=
            checkRepo_result_repoKey r lastCommits settings userData gitlabUserData fetch
              res' hres'
          rw [if_neg (hkey' ▸ repoKeyOf_ne_empty r), hkey']
          exact fun he => hr (huniq r (List.mem_cons_self r l) he)
      · right
        rcases List.mem_cons.mp hm with hm | hm
        · exact absurd hm.symm hr
        · exact hm

/-- A prefix of a list is a prefix of any right-extension of it. -/
theorem isPrefixOfB_append (p l r : List Char) (h : isPrefixOfB p l = true) :
    isPrefixOfB p (l ++ r) = true := by
  induction p generalizing l with
  | nil => rfl
  | cons a as ih =>
    cases l with
    | nil => simp [isPrefixOfB] at h
    | cons b bs =>
      rw [List.cons_append]
      simp only [isPrefixOfB, Bool.and_eq_true] at h ⊢
      exact ⟨h.1, ih bs h.2⟩

/-- A substring of a list is a substring of any right-extension of it. -/
theorem isSubListB_append_left (p l r : List Char) (h : isSubListB p l = true) :
    isSubListB p (l ++ r) = true := by
  induction l with
  | nil =>
    have hp : p = [] := by
      cases p with
      | nil => rfl
      | cons a as => simp [isSubListB, isPrefixOfB] at h
    subst hp
    cases r with
    | nil => rfl
    | cons b bs => simp [isSubListB, isPrefixOfB]
  | cons b bs ih =>
    rw [List.cons_append]
    simp only [isSubListB, Bool.or_eq_true] at h ⊢
    rcases h with h | h
    · refine Or.inl ?_
      rw [← List.cons_append]
      exact isPrefixOfB_append p (b :: bs) r h
    · exact Or.inr (ih h)

/-- Every endpoint requested by the pagination loop asks for 100 items per
page (`per_page=100` occurs in the request string). -/
theorem reposEndpoint_perPage (page : Nat) :
    isSubListB "per_page=100".data (reposEndpoint page).data = true := by
  unfold reposEndpoint
  rw [String.data_append]
  exact isSubListB_append_left _ _ _ (by decide)

/-- Bound on the pagination loop from page `page`: starting `n` pages before
the cap, it issues at most `n` more requests, each for 100 items per page,
and accumulates at most `n * 100` more repositories. -/
theorem fetchReposAux_bound (server : String → PageResponse) (settings : Settings)
    (hserver : ∀ e, (server e).body.length ≤ 100) :
    ∀ (n page : Nat) (acc : List RawRepo) (requested : List String),
      page + n = 51 → page ≤ 50 →
      (fetchReposAux server settings page acc requested).1.length ≤
          requested.length + n ∧
        okLength (fetchReposAux server settings page acc requested).2 ≤
          acc.length + n * 100 ∧
        (requested.all (fun e => isSubListB "per_page=100".data e.data) = true →
          (fetchReposAux server settings page acc requested).1.all
            (fun e => isSubListB "per_page=100".data e.data) = true) := by
  intro n
  induction n with
  | zero =>
    intro page acc requested hpn hple
    exact absurd hpn (by omega)
  | succ n ih =>
    intro page acc requested hpn hple
    rw [fetchReposAux]
    by_cases hok : (server (reposEndpoint page)).ok = false
    · rw [if_pos hok]
      refine ⟨?_, ?_, ?_⟩
      · simp only [List.length_append, List.length_singleton]
        omega
      · simp [okLength]
      · intro hall
        rw [List.all_append]
        simp [hall, reposEndpoint_perPage page]
    · rw [if_neg hok]
      by_cases hlen : (server (reposEndpoint page)).body.length = 0
      · rw [if_pos hlen]
        refine ⟨?_, ?_, ?_⟩
        · simp only [List.length_append, List.length_singleton]
          omega
        · simp only [okLength]
          omega
        · intro hall
          rw [List.all_append]
          simp [hall, reposEndpoint_perPage page]
      · rw [if_neg hlen]
        by_cases h50 : 50 < page + 1
        · rw [dif_pos h50]
          refine ⟨?_, ?_, ?_⟩
          · simp only [List.length_append, List.length_singleton]
            omega
          · simp only [okLength, List.length_append]
            have hfil := List.length_filter_le
              (fun r => !settings.ignoreForks || !r.fork) (server (reposEndpoint page)).body
            have hbody := hserver (reposEndpoint page)
            omega
          · intro hall
            rw [List.all_append]
            simp [hall, reposEndpoint_perPage page]
        · rw [dif_neg h50]
          have hih := ih (page + 1)
            (acc ++ (server (reposEndpoint page)).body.filter
              (fun r => !settings.ignoreForks || !r.fork))
            (requested ++ [reposEndpoint page]) (by omega) (by omega)
          refine ⟨?_, ?_, ?_⟩
          · have h1 := hih.1
            simp only [List.length_append, List.length_singleton] at h1
            omega
          · have h2 := hih.2.1
            have hfil := List.length_filter_le
              (fun r => !settings.ignoreForks || !r.fork) (server (reposEndpoint page)).body
            have hbody := hserver (reposEndpoint page)
            simp only [List.length_append] at h2
            omega
          · intro hall
            refine hih.2.2 ?_
            rw [List.all_append]
            simp [hall, reposEndpoint_perPage page]

/-! ## Claim theorems -/

/-- C10: `classifyCommitPriority(commit, repo, userData)` is independent of
its `repo` and `userData` arguments: any two values (even of different
types) give the same priority, which depends only on the commit record. -/
theorem classifyCommitPriority_independent {R₁ R₂ U₁ U₂ : Type} (commit : Commit)
    (repo₁ : R₁) (repo₂ : R₂) (userData₁ : U₁) (userData₂ : U₂) :
    classifyCommitPriority commit repo₁ userData₁ =
      classifyCommitPriority commit repo₂ userData₂ := rfl

/-- C3: a commit with two or more parent shas is analysed as type `merge`,
and `classifyCommitPriority` returns `low` for it, regardless of its files,
stats, or message. -/
theorem merge_commit_low_priority (c : Commit) (h : 2 ≤ c.parents.length) :
    (analyzeCommitType c).type = CommitType.merge ∧
      ∀ {R U : Type} (repo : R) (userData : U),
        classifyCommitPriority c repo userData = Priority.low := by
  have htype : analyzeCommitType c = ⟨.merge, 0, 0, 0⟩ := by
    unfold analyzeCommitType
    rw [if_pos h]
  refine ⟨by rw [htype], ?_⟩
  intro R U repo userData
  unfold classifyCommitPriority
  rw [htype]
  simp [isLowPriorityType]

/-- Witness for C3 at a concrete two-parent commit. -/
theorem merge_commit_low_priority_witness :
    2 ≤ (⟨"s", "m", none, ["p1", "p2"], [], ⟨0, 0⟩, false⟩ : Commit).parents.length ∧
      (analyzeCommitType ⟨"s", "m", none, ["p1", "p2"], [], ⟨0, 0⟩, false⟩).type =
        CommitType.merge ∧
      classifyCommitPriority (⟨"s", "m", none, ["p1", "p2"], [], ⟨0, 0⟩, false⟩ : Commit)
        () () = Priority.low :=
  ⟨by decide, (merge_commit_low_priority _ (by decide)).1,
    (merge_commit_low_priority _ (by decide)).2 () ()⟩

/-- C7 counterexample: the five pattern families are not pairwise disjoint;
`docs/package.json` is matched both by the docs family (`^docs\/`) and by
the config family (`package\.json$`), so the filename is matched by two of
the five families. -/
theorem fileFamilies_not_disjoint :
    ¬ ∀ f : String, (fileFamilies.filter fun p => p.2 f).length ≤ 1 := by
  intro h
  exact absurd (h "docs/package.json") (by decide)

/-- C7 (amended): each changed file is nevertheless assigned at most one
family, because `analyzeCommitType` tests the families in the fixed source
order (docs, config, ci, tests, localization) and stops at the first
match. -/
theorem categorizeFile_first_match (f : String) :
    categorizeFile f =
      (if docsMatch f then .docs
        else if configMatch f then .config
        else if ciMatch f then .ci
        else if testsMatch f then .tests
        else if localizationMatch f then .localization
        else .code) := by
  unfold categorizeFile fileFamilies
  cases h1 : docsMatch f <;> cases h2 : configMatch f <;> cases h3 : ciMatch f <;>
    cases h4 : testsMatch f <;> cases h5 : localizationMatch f <;>
      simp [List.find?, h1, h2, h3, h4, h5]

/-- C2: with a stored token, whenever the tracked rate-limit state has
`remaining <= 10` and the current time is strictly before the reset epoch,
`fetchGitHub` fails with a rate-limited error whose retry delay
`Math.ceil((reset - now) / 60)` is positive, and its outcome does not depend
on the network at all (no network call is made). -/
theorem fetchGitHub_rate_limit_fail_fast {α : Type} (t : String) (htok : t ≠ "")
    (rateLimitRemaining : ℤ) (rateLimitReset : ℕ) (now : ℚ)
    (h10 : rateLimitRemaining ≤ 10) (hnow : 0 ≤ now)
    (hlt : now < (rateLimitReset : ℚ)) (net net' : Unit → α) :
    fetchGitHub (some t) rateLimitRemaining rateLimitReset now net =
        GhOutcome.rateLimited (Int.ceil (((rateLimitReset : ℚ) - now) / 60)) ∧
      0 < Int.ceil (((rateLimitReset : ℚ) - now) / 60) ∧
      fetchGitHub (some t) rateLimitRemaining rateLimitReset now net =
        fetchGitHub (some t) rateLimitRemaining rateLimitReset now net' := by
  have hpos : (0 : ℚ) < (rateLimitReset : ℚ) := lt_of_le_of_lt hnow hlt
  have hne : rateLimitReset ≠ 0 := by
    intro h0
    rw [h0] at hpos
    exact absurd hpos (by norm_num)
  have hcond : rateLimitRemaining ≤ 10 ∧ rateLimitReset ≠ 0 ∧
      now < (rateLimitReset : ℚ) := ⟨h10, hne, hlt⟩
  have hceil : 0 < Int.ceil (((rateLimitReset : ℚ) - now) / 60) :=
    Int.ceil_pos.mpr (div_pos (sub_pos.mpr hlt) (by norm_num))
  have ht : truthyStr (some t) = true := by simp [truthyStr, htok]
  unfold fetchGitHub
  simp only [ht, Bool.not_true, Bool.false_eq_true, if_false, if_pos hcond]
  exact ⟨trivial, hceil, trivial⟩

/-- C6: for a code-type commit where no high-priority rule fires (maximum
critical weight below 3, fewer than 3 critical files, no large-deletion
file, fewer than 2 critical files, no high-urgency keyword) but at least one
changed file matches a critical pattern, `classifyCommitPriority` returns
`medium` — the critical-file rule fires before the low-urgency keyword rule
is ever reached. -/
theorem critical_file_medium (c : Commit)
    (htype : (analyzeCommitType c).type = CommitType.code)
    (hmaxw : (analyzeCriticalFiles c.files).maxWeight < 3)
    (hcount3 : (analyzeCriticalFiles c.files).criticalFiles.length < 3)
    (hdel : c.files.any largeDeletionFile = false)
    (hcount2 : (analyzeCriticalFiles c.files).criticalFiles.length < 2)
    (hkw : HIGH_PRIORITY_KEYWORDS.any (messageHasKeyword c.message) = false)
    (hcrit : (analyzeCriticalFiles c.files).hasCritical = true) :
    ∀ {R U : Type} (repo : R) (userData : U),
      classifyCommitPriority c repo userData = Priority.medium := by
  intro R U repo userData
  have hhigh : (analyzeCriticalFiles c.files).isHighPriority = false := by
    rw [analyzeCriticalFiles_isHighPriority]
    simp only [Bool.or_eq_false_iff, decide_eq_false_iff_not, not_le]
    exact ⟨hmaxw, hcount3⟩
  have h2 : ¬ (2 ≤ (analyzeCriticalFiles c.files).criticalFiles.length) := by omega
  unfold classifyCommitPriority
  simp [htype, hhigh, hdel, hkw, hcrit, h2, isLowPriorityType]

/-- Witness for C6: a single `api/`-matching file (weight 1) and the
low-urgency message `refactor stuff` still classify as `medium`. -/
theorem critical_file_medium_witness :
    (analyzeCriticalFiles
        ([⟨"api/x.js", 1, 1⟩] : List FileChange)).hasCritical = true ∧
      classifyCommitPriority
        (⟨"s", "refactor stuff", none, [], [⟨"api/x.js", 1, 1⟩], ⟨2, 2⟩, false⟩ : Commit)
        () () = Priority.medium :=
  ⟨by decide,
    critical_file_medium _ (by decide) (by decide) (by decide) (by decide) (by decide)
      (by decide) (by decide) () ()⟩

/-- C5: after more than 100 insertions through `storeNotificationHistory`,
the stored history is exactly the 100 most recent insertions, newest first
(and therefore in descending timestamp order whenever the insertion
timestamps are non-decreasing, as they are for a monotone clock), and its
length is exactly 100, from any starting history. -/
theorem history_bound (h0 ns : List NotificationRecord) (hlen : 100 < ns.length) :
    runHistory h0 ns = ns.reverse.take 100 ∧
      (runHistory h0 ns).length = 100 ∧
      (ns.Pairwise (fun a b => a.timestamp ≤ b.timestamp) →
        (runHistory h0 ns).Pairwise (fun a b => b.timestamp ≤ a.timestamp)) := by
  obtain ⟨n, ns', rfl⟩ : ∃ n ns', ns = n :: ns' := by
    cases ns with
    | nil => simp at hlen
    | cons a l => exact ⟨a, l, rfl⟩
  have hmain : runHistory h0 (n :: ns') = ((n :: ns').reverse).take 100 := by
    have hlen' : ((n :: h0).take 100).length ≤ 100 := by
      rw [List.length_take]; omega
    calc runHistory h0 (n :: ns') = runHistory ((n :: h0).take 100) ns' := rfl
      _ = (ns'.reverse ++ (n :: h0).take 100).take 100 := runHistory_eq_take ns' _ hlen'
      _ = (ns'.reverse ++ (n :: h0)).take 100 := take_append_take _ _ _
      _ = ((n :: ns').reverse ++ h0).take 100 := by
          rw [List.reverse_cons, List.append_assoc, List.singleton_append]
      _ = ((n :: ns').reverse).take 100 := by
          refine List.take_append_of_le_length ?_
          rw [List.length_reverse]
          omega
  refine ⟨hmain, ?_, ?_⟩
  · rw [hmain, List.length_take, List.length_reverse]
    simp at hlen ⊢
    omega
  · intro hp
    rw [hmain]
    refine List.Pairwise.sublist (List.take_sublist _ _) ?_
    exact List.pairwise_reverse.mpr hp

/-- Witness for C5: 101 insertions with increasing timestamps leave exactly
100 stored entries. -/
theorem history_bound_witness :
    (runHistory []
        ((List.range 101).map fun i => (⟨"n", i⟩ : NotificationRecord))).length = 100 :=
  (history_bound [] _ (by simp)).2.1

/-- C1: for a repository with no persisted last-seen entry under either the
composite `platform:full_name` key or the legacy `full_name` key,
`checkRepoForNewCommits` never returns a result with `isNew = true`
(whatever the fetch produces), and — when the repository is enabled and the
fetch resolves with a (non-`unchanged`) record — it returns exactly that
record with `isNew = false`, establishing the baseline without notifying. -/
theorem first_observation_not_new (repo : Repo) (lastCommits : String → Option String)
    (settings : Settings) (userData gitlabUserData : Option User)
    (fetch : Repo → Option String → Option Commit)
    (hK : lastCommits (repoKeyOf repo) = none)
    (hF : lastCommits repo.full_name = none) :
    (∀ result, checkRepoForNewCommits repo lastCommits settings userData gitlabUserData
        fetch = some result → result.isNew = false) ∧
      (settings.enabledRepos (repoKeyOf repo) ≠ some false →
        settings.enabledRepos repo.full_name ≠ some false →
        ∀ latest, fetch repo none = some latest → latest.unchanged = false →
          checkRepoForNewCommits repo lastCommits settings userData gitlabUserData fetch =
            some ⟨repo, latest, false, none, repoKeyOf repo⟩) := by
  constructor
  · intro result h
    simp only [checkRepoForNewCommits, hK, hF, jsOrStr, truthyStr, Bool.not_false,
      if_true] at h
    by_cases hd : settings.enabledRepos (repoKeyOf repo) = some false ∨
        settings.enabledRepos repo.full_name = some false
    · rw [if_pos hd] at h
      exact absurd h (by simp)
    · rw [if_neg hd] at h
      rcases hfetch : fetch repo none with _ | latest <;> simp only [hfetch] at h
      · exact absurd h (by simp)
      · by_cases hu : latest.unchanged = true
        · simp [hu] at h
        · rw [if_neg hu] at h
          obtain rfl := Option.some_inj.mp h
          rfl
  · intro henb1 henb2 latest hfetch hunch
    have hd : ¬ (settings.enabledRepos (repoKeyOf repo) = some false ∨
        settings.enabledRepos repo.full_name = some false) := by
      rintro (h | h)
      · exact henb1 h
      · exact henb2 h
    simp only [checkRepoForNewCommits, hK, hF, jsOrStr, truthyStr, Bool.not_false, if_true]
    rw [if_neg hd, hfetch]
    simp [hunch]

/-- Witness for C1 at a concrete repository with empty watch state. -/
theorem first_observation_not_new_witness :
    checkRepoForNewCommits ⟨some "github", "octo/repo", "main"⟩ (fun _ => none)
        ⟨fun _ => none, false, false⟩ none none
        (fun _ _ => some ⟨"abc", "m", none, [], [], ⟨0, 0⟩, false⟩) =
      some ⟨⟨some "github", "octo/repo", "main"⟩, ⟨"abc", "m", none, [], [], ⟨0, 0⟩, false⟩,
        false, none, repoKeyOf ⟨some "github", "octo/repo", "main"⟩⟩ :=
  (first_observation_not_new ⟨some "github", "octo/repo", "main"⟩ (fun _ => none)
      ⟨fun _ => none, false, false⟩ none none
      (fun _ _ => some ⟨"abc", "m", none, [], [], ⟨0, 0⟩, false⟩) rfl rfl).2
    (by decide) (by decide) _ rfl rfl

/-- C4: with `ignoreOwnCommits` enabled, a changed commit identifier, and a
commit author login equal to the authenticated identity for the
repository's platform, `checkRepoForNewCommits` returns `isNew = false`,
and the sweep of `checkAllRepositoriesForCommits` still advances the
persisted last-seen map at the repository's composite key to the new
identifier. -/
theorem own_commit_suppressed (repo : Repo) (lastCommits : String → Option String)
    (settings : Settings) (userData gitlabUserData : Option User)
    (fetch : Repo → Option String → Option Commit) (s : String) (latest : Commit)
    (u : User)
    (hign : settings.ignoreOwnCommits = true)
    (henb1 : settings.enabledRepos (repoKeyOf repo) ≠ some false)
    (henb2 : settings.enabledRepos repo.full_name ≠ some false)
    (hlast : jsOrStr (lastCommits (repoKeyOf repo)) (lastCommits repo.full_name) = some s)
    (hs : s ≠ "")
    (hfetch : fetch repo (some s) = some latest)
    (hunch : latest.unchanged = false)
    (hsha : latest.sha ≠ s)
    (huser : (if repo.platform = some "gitlab" then gitlabUserData else userData) = some u)
    (hlogin : latest.authorLogin = some u.login) :
    checkRepoForNewCommits repo lastCommits settings userData gitlabUserData fetch =
        some ⟨repo, latest, false, none, repoKeyOf repo⟩ ∧
      ∀ repos : List Repo, repo ∈ repos →
        (∀ r' ∈ repos, repoKeyOf r' = repoKeyOf repo → r' = repo) →
        sweepUpdates repos lastCommits settings userData gitlabUserData fetch
          (repoKeyOf repo) = some latest.sha := by
  have hd : ¬ (settings.enabledRepos (repoKeyOf repo) = some false ∨
      settings.enabledRepos repo.full_name = some false) := by
    rintro (h | h)
    · exact henb1 h
    · exact henb2 h
  have ht : truthyStr (some s) = true := by simp [truthyStr, hs]
  have hbne : (latest.sha != s) = true := by simp [hsha]
  have hcheck : checkRepoForNewCommits repo lastCommits settings userData gitlabUserData
      fetch = some ⟨repo, latest, false, none, repoKeyOf repo⟩ := by
    simp [checkRepoForNewCommits, hlast, hd, hfetch, hunch, ht, hbne, hign, huser, hlogin]
  refine ⟨hcheck, ?_⟩
  intro repos hmem huniq
  have hfold := sweep_lookup lastCommits settings userData gitlabUserData fetch repo
    ⟨repo, latest, false, none, repoKeyOf repo⟩ hcheck repos lastCommits (Or.inr hmem)
    huniq
  unfold sweepUpdates
  exact hfold

/-- Witness for C4: the authenticated GitHub user `me` pushes commit `new`
over the stored `old`; the check suppresses the notification while the
sweep still stores `new`. -/
theorem own_commit_suppressed_witness :
    checkRepoForNewCommits ⟨some "github", "o/r", "main"⟩
        (fun k => if k = "github:o/r" then some "old" else none)
        ⟨fun _ => none, true, false⟩ (some ⟨"me"⟩) none
        (fun _ _ => some ⟨"new", "m", some "me", [], [], ⟨0, 0⟩, false⟩) =
      some ⟨⟨some "github", "o/r", "main"⟩, ⟨"new", "m", some "me", [], [], ⟨0, 0⟩, false⟩,
        false, none, repoKeyOf ⟨some "github", "o/r", "main"⟩⟩ ∧
    sweepUpdates [⟨some "github", "o/r", "main"⟩]
        (fun k => if k = "github:o/r" then some "old" else none)
        ⟨fun _ => none, true, false⟩ (some ⟨"me"⟩) none
        (fun _ _ => some ⟨"new", "m", some "me", [], [], ⟨0, 0⟩, false⟩)
        (repoKeyOf ⟨some "github", "o/r", "main"⟩) = some "new" := by
  have h := own_commit_suppressed ⟨some "github", "o/r", "main"⟩
    (fun k => if k = "github:o/r" then some "old" else none)
    ⟨fun _ => none, true, false⟩ (some ⟨"me"⟩) none
    (fun _ _ => some ⟨"new", "m", some "me", [], [], ⟨0, 0⟩, false⟩)
    "old" ⟨"new", "m", some "me", [], [], ⟨0, 0⟩, false⟩ ⟨"me"⟩
    rfl (by decide) (by decide) (by decide) (by decide) rfl rfl (by decide) (by decide)
    rfl
  exact ⟨h.1, h.2 [⟨some "github", "o/r", "main"⟩] (by decide)
    (by intro r' hr' _; rw [List.mem_singleton] at hr'; exact hr')⟩

/-- C8: a fetch failure for a single repository — a thrown network error or
a non-ok (404/409) list response — is caught inside `fetchLatestGitHubCommit`
and yields `none`; a repository whose check returns `none` contributes
nothing to the sweep, so the state updates of every other repository in the
sweep (and hence in its batch) are exactly those of the sweep without the
failed repository. -/
theorem fetch_failure_isolated :
    (∀ (lastKnownSha : Option String) (d : NetOutcome Commit),
        fetchLatestGitHubCommit lastKnownSha NetOutcome.netError d = none) ∧
      (∀ (lastKnownSha : Option String) (r : HttpResponse (List Commit))
          (d : NetOutcome Commit), r.ok = false →
          fetchLatestGitHubCommit lastKnownSha (NetOutcome.success r) d = none) ∧
      (∀ (l1 l2 : List Repo) (rF : Repo) (lastCommits : String → Option String)
          (settings : Settings) (userData gitlabUserData : Option User)
          (fetch : Repo → Option String → Option Commit),
          checkRepoForNewCommits rF lastCommits settings userData gitlabUserData fetch
            = none →
          sweepUpdates (l1 ++ rF :: l2) lastCommits settings userData gitlabUserData
              fetch =
            sweepUpdates (l1 ++ l2) lastCommits settings userData gitlabUserData
              fetch) := by
  refine ⟨fun _ _ => rfl, ?_, ?_⟩
  · intro lastKnownSha r d hok
    simp [fetchLatestGitHubCommit, hok]
  · intro l1 l2 rF lastCommits settings userData gitlabUserData fetch hnone
    unfold sweepUpdates
    rw [List.foldl_append, List.foldl_append, List.foldl_cons, hnone]
    rfl

/-- Witness for C8: the middle repository of a three-element sweep fails;
the other two produce the same updates as the sweep without it. -/
theorem fetch_failure_isolated_witness :
    fetchLatestGitHubCommit none (NetOutcome.success ⟨false, 404, ([] : List Commit)⟩)
        NetOutcome.netError = none ∧
      sweepUpdates ([⟨some "github", "a/a", "m"⟩] ++ ⟨some "github", "f/f", "m"⟩ ::
          [⟨some "github", "b/b", "m"⟩]) (fun _ => none) ⟨fun _ => none, false, false⟩
          none none
          (fun r _ => if r.full_name = "f/f" then none
            else some ⟨"s1", "m", none, [], [], ⟨0, 0⟩, false⟩) =
        sweepUpdates ([⟨some "github", "a/a", "m"⟩] ++ [⟨some "github", "b/b", "m"⟩])
          (fun _ => none) ⟨fun _ => none, false, false⟩ none none
          (fun r _ => if r.full_name = "f/f" then none
            else some ⟨"s1", "m", none, [], [], ⟨0, 0⟩, false⟩) :=
  ⟨fetch_failure_isolated.2.1 none ⟨false, 404, []⟩ NetOutcome.netError rfl,
    fetch_failure_isolated.2.2 [⟨some "github", "a/a", "m"⟩]
      [⟨some "github", "b/b", "m"⟩] ⟨some "github", "f/f", "m"⟩ (fun _ => none)
      ⟨fun _ => none, false, false⟩ none none
      (fun r _ => if r.full_name = "f/f" then none
        else some ⟨"s1", "m", none, [], [], ⟨0, 0⟩, false⟩) (by decide)⟩

/-- C9: `fetchUserRepositories` issues at most 50 page requests, each asking
for 100 items per page, before its loop stops (the loop is total by
construction), and under the per-page contract the returned repository list
has at most 5,000 entries. -/
theorem fetchUserRepositories_bounded (server : String → PageResponse)
    (settings : Settings) (hserver : ∀ e, (server e).body.length ≤ 100) :
    (fetchUserRepositories server settings).1.length ≤ 50 ∧
      (fetchUserRepositories server settings).1.all
        (fun e => isSubListB "per_page=100".data e.data) = true ∧
      okLength (fetchUserRepositories server settings).2 ≤ 5000 := by
  have h := fetchReposAux_bound server settings hserver 50 1 [] [] (by omega) (by omega)
  unfold fetchUserRepositories
  exact ⟨by simpa using h.1, h.2.2 rfl, by simpa using h.2.1⟩

/-- Witness for C9 on a server with no repositories. -/
theorem fetchUserRepositories_bounded_witness :
    (fetchUserRepositories (fun _ => ⟨true, []⟩)
        ⟨fun _ => none, false, false⟩).1.length ≤ 50 ∧
      okLength (fetchUserRepositories (fun _ => ⟨true, []⟩)
        ⟨fun _ => none, false, false⟩).2 ≤ 5000 :=
  ⟨(fetchUserRepositories_bounded (fun _ => ⟨true, []⟩) ⟨fun _ => none, false, false⟩
      (fun _ => Nat.zero_le 100)).1,
    (fetchUserRepositories_bounded (fun _ => ⟨true, []⟩) ⟨fun _ => none, false, false⟩
      (fun _ => Nat.zero_le 100)).2.2⟩

/-- Witness for C2: remaining 5, reset epoch 60, now 0. -/
theorem fetchGitHub_rate_limit_fail_fast_witness :
    fetchGitHub (some "tok") 5 60 0 (fun _ => (0 : Nat)) = GhOutcome.rateLimited 1 ∧
      (0 : ℤ) < 1 := by
  have h := fetchGitHub_rate_limit_fail_fast "tok" (by decide) 5 60 0 (by norm_num)
    le_rfl (by norm_num) (fun _ => (0 : Nat)) (fun _ => (0 : Nat))
  have hceil : Int.ceil ((((60 : ℕ) : ℚ) - 0) / 60) = 1 := by norm_num
  rw [hceil] at h
  exact ⟨h.1, h.2.1⟩

end CommitWatch
